import Mathlib

/-!
Shallow embedding of the woodchipper log-viewer core (parser chain,
classifier chain, layout engine, interactive state, reorder buffer),
translated from the Rust sources under `src/`, together with theorems
settling the frozen claims about the program.

Conventions used throughout:
* Rust `usize` widths are `Nat`; `i8` chunk weights and `i64` millisecond
  timestamps are `Int`.
* `HashMap`/`serde_json::Map` values are association lists
  (`List (String × _)`); `HashSet` is a `List String`.  Only key lookup and
  key-set membership matter to the claims, so list order is immaterial.
* `chrono::DateTime<Utc>` is opaque here and represented by its
  `timestamp_millis` value (`Int`).  Calls into external crates
  (chrono format parsing, dtparse, the regex crate) are represented by
  explicit parameters or by small functions modelled from the crate's
  documented behaviour, each marked in its doc comment.
* Styling (`ansi_term` paint) changes only escape bytes, never the `width`
  field that all layout decisions read, so `StyleProfile.paint` is the
  identity on content.
-/

namespace Woodchipper

/-! ## Data model: `src/parser/types.rs` -/

/-- Log levels, `LogLevel` in `src/parser/types.rs`. -/
inductive LogLevel where
  | Debug | Info | Warning | Error | Fatal | Plain | Int
deriving DecidableEq, Repr

/-- Tag of the producing parser, `MessageKind` in `src/parser/types.rs`. -/
inductive MessageKind where
  | Json | Plain | Logrus | Klog | Regex | Internal
deriving DecidableEq, Repr

/-- Normalized-slot tags, `MappingField` in `src/parser/types.rs`. -/
inductive MappingField where
  | Timestamp | Level | Text
deriving DecidableEq, Repr

/-- A `serde_json::Value`. -/
inductive Json where
  | str (s : String)
  | num (n : Int)
  | bool (b : Bool)
  | null
  | arr (elems : List Json)
  | obj (fields : List (String × Json))
deriving Repr

/-- `Value::as_str` from serde_json. -/
def Json.as_str : Json → Option String
  | .str s => some s
  | _ => none

/-- A UTC instant, represented by its `timestamp_millis` value. -/
abbrev DateTimeUtc := Int

/-- `ReaderMetadata` in `src/parser/types.rs`. -/
structure ReaderMetadata where
  timestamp : Option DateTimeUtc
  source : Option String
deriving Repr

/-- `Message` in `src/parser/types.rs`.  The Rust struct declares
`raw: String` (mandatory and always serialized), but the `Message`
literals in `parse_json`, `parse_klog` and `parse_plain` do not give the
field at all (a missing-field struct literal); only `parse_mapping` in
`src/parser/regex.rs` sets `raw: line.to_string()`.  To make that omission
observable we model the field as `Option String`, with `none` standing for
"not initialized by the constructor". -/
structure Message where
  kind : MessageKind
  timestamp : Option DateTimeUtc
  level : Option LogLevel
  raw : Option String
  text : Option String
  metadata : List (String × Json)
  reader_metadata : Option ReaderMetadata
  mapped_fields : List (String × MappingField)
deriving Repr

/-- `LogLevel::from_str` in `src/parser/types.rs`. -/
def LogLevel.from_str (s : String) : Option LogLevel :=
  match s.toLower with
  | "debug" | "dbg" | "d" => some .Debug
  | "info" | "i" => some .Info
  | "warning" | "warn" | "w" => some .Warning
  | "error" | "err" | "e" => some .Error
  | "fatal" | "panic" | "f" | "p" => some .Fatal
  | _ => none

/-! ## Chunk model: `src/classifier/types.rs` -/

/-- `ChunkKind` in `src/classifier/types.rs`. -/
inductive ChunkKind where
  | Level (level : LogLevel)
  | Date | Time | Text | Context | Field | FieldKey | FieldValue | Spacer
  | Other
deriving DecidableEq, Repr

/-- `ChunkSlot` in `src/classifier/types.rs`. -/
inductive ChunkSlot where
  | Left | Center | Right
deriving DecidableEq, Repr

/-- `ChunkAlignment` in `src/classifier/types.rs`. -/
inductive ChunkAlignment where
  | Left | Right
deriving DecidableEq, Repr

/-- `ChunkWeight` in `src/classifier/types.rs`. -/
inductive ChunkWeight where
  | Low | Normal | Medium | High
deriving DecidableEq, Repr

/-- `ChunkWeight::value` in `src/classifier/types.rs`. -/
def ChunkWeight.value : ChunkWeight → Int
  | .Low => -10
  | .Normal => 0
  | .Medium => 10
  | .High => 20

/-- `Chunk` in `src/classifier/types.rs` (a recursive struct, so declared
as a single-constructor inductive with explicit projections below). -/
inductive Chunk where
  | mk (kind : ChunkKind) (slot : ChunkSlot) (alignment : ChunkAlignment)
       (pad_left : Bool) (pad_right : Bool)
       (break_after : Bool) (force_break_after : Bool) (wrap : Bool)
       (weight : Int) (value : Option String) (children : List Chunk)
deriving Repr

def Chunk.kind : Chunk → ChunkKind
  | .mk k _ _ _ _ _ _ _ _ _ _ => k

def Chunk.slot : Chunk → ChunkSlot
  | .mk _ s _ _ _ _ _ _ _ _ _ => s

def Chunk.alignment : Chunk → ChunkAlignment
  | .mk _ _ a _ _ _ _ _ _ _ _ => a

def Chunk.pad_left : Chunk → Bool
  | .mk _ _ _ pl _ _ _ _ _ _ _ => pl

def Chunk.pad_right : Chunk → Bool
  | .mk _ _ _ _ pr _ _ _ _ _ _ => pr

def Chunk.break_after : Chunk → Bool
  | .mk _ _ _ _ _ ba _ _ _ _ _ => ba

def Chunk.force_break_after : Chunk → Bool
  | .mk _ _ _ _ _ _ fba _ _ _ _ => fba

def Chunk.wrap : Chunk → Bool
  | .mk _ _ _ _ _ _ _ w _ _ _ => w

def Chunk.weight : Chunk → Int
  | .mk _ _ _ _ _ _ _ _ w _ _ => w

def Chunk.value : Chunk → Option String
  | .mk _ _ _ _ _ _ _ _ _ v _ => v

def Chunk.children : Chunk → List Chunk
  | .mk _ _ _ _ _ _ _ _ _ _ cs => cs

/-- One space of padding per set pad flag of a child, as counted by the
child loop of `Chunk::measure` in `src/classifier/types.rs`. -/
def childPad (c : Chunk) : Nat :=
  (if c.pad_left then 1 else 0) + (if c.pad_right then 1 else 0)

mutual

/-- `Chunk::measure` in `src/classifier/types.rs`: own value length
(in chars) plus one per own pad flag, plus for every child its measure
plus one per child pad flag (so a child's padding is counted both inside
`child.measure()` and again by the parent loop). -/
def Chunk.measure : Chunk → Nat
  | .mk _ _ _ pl pr _ _ _ _ v children =>
    (match v with | some s => s.length | none => 0)
      + ((if pl then 1 else 0) + (if pr then 1 else 0))
      + measureChildren children

/-- The child loop of `Chunk::measure`. -/
def measureChildren : List Chunk → Nat
  | [] => 0
  | c :: rest => Chunk.measure c + childPad c + measureChildren rest

end

/-! ## Rendered chunks and merging: `src/renderer/common.rs` -/

/-- `StyleProfile` from `src/style.rs`, reduced to the only bit the layout
code inspects (`is_opaque`); `paint` only adds escape bytes and never
changes the `width` of any chunk, so it is the identity here. -/
structure StyleProfile where
  is_opaque : Bool
deriving DecidableEq, Repr

/-- `StyleProfile::plain()` (the `DUMMY_STYLE` of `src/renderer/plain.rs`). -/
def plainStyle : StyleProfile := ⟨false⟩

/-- `RenderedChunk` in `src/renderer/common.rs`. -/
structure RenderedChunk where
  content : String
  width : Nat
  pad_left : Bool
  pad_right : Bool
  break_after : Bool
  force_break_after : Bool
  kind : ChunkKind
  weight : Int
  alignment : ChunkAlignment
deriving DecidableEq, Repr

/-- `RenderedChunk::empty` in `src/renderer/common.rs`. -/
def RenderedChunk.empty : RenderedChunk :=
  ⟨"", 0, true, true, false, false, .Spacer, 0, .Left⟩

/-- Builds a run of `n` spaces. -/
def spacesStr (n : Nat) : String := String.mk (List.replicate n ' ')

/-- `RenderedChunk::spacer` in `src/renderer/common.rs` (the opaque-profile
paint only wraps the spaces in escape codes). -/
def RenderedChunk.spacer (width : Nat) (_profile : StyleProfile) : RenderedChunk :=
  ⟨spacesStr width, width, true, true, false, false, .Spacer, 0, .Left⟩

/-- Loop state of `merge_chunks` in `src/renderer/common.rs`. -/
structure MergeAcc where
  width : Nat
  pad_left : Bool
  buf : String
  last_child_pad_right : Bool
  last_child_break_after : Bool
  last_child_force_break_after : Bool
deriving DecidableEq, Repr

/-- The `for (i, chunk)` loop of `merge_chunks` (`src/renderer/common.rs`
lines 89-117): zero-width chunks are skipped (but still counted by the
enumeration index `i`); a single space is baked in between the previous
non-skipped chunk and the current one iff the former has `pad_right` or the
latter has `pad_left`; the first chunk's `pad_left` bubbles up. -/
def mergeLoop : Nat → MergeAcc → List RenderedChunk → MergeAcc
  | _, acc, [] => acc
  | i, acc, c :: rest =>
    if c.width = 0 then mergeLoop (i + 1) acc rest
    else
      let padLeft := if i = 0 && c.pad_left then true else acc.pad_left
      let addPad := decide (0 < i) && (acc.last_child_pad_right || c.pad_left)
      mergeLoop (i + 1)
        { width := acc.width + (if addPad then 1 else 0) + c.width
          pad_left := padLeft
          buf := acc.buf ++ (if addPad then " " else "") ++ c.content
          last_child_pad_right := c.pad_right
          last_child_break_after := c.break_after
          last_child_force_break_after := c.force_break_after }
        rest

/-- `merge_chunks` in `src/renderer/common.rs`. -/
def merge_chunks (chunks : List RenderedChunk) (_profile : StyleProfile) :
    RenderedChunk :=
  let acc := mergeLoop 0 ⟨0, false, "", false, false, false⟩ chunks
  ⟨acc.buf, acc.width, acc.pad_left, acc.last_child_pad_right,
    acc.last_child_break_after, acc.last_child_force_break_after,
    .Other, 0, .Left⟩

/-- The loop of `measure_chunks` in `src/renderer/common.rs` (state:
enumeration index, previous chunk's `pad_right`, accumulated width).
Unlike `merge_chunks` it does not skip zero-width chunks. -/
def measureLoop : Nat → Bool → Nat → List RenderedChunk → Nat
  | _, _, width, [] => width
  | i, last_child_pad_right, width, c :: rest =>
    let pad := if decide (0 < i) && (last_child_pad_right || c.pad_left)
      then 1 else 0
    measureLoop (i + 1) c.pad_right (width + pad + c.width) rest

/-- `measure_chunks` in `src/renderer/common.rs`. -/
def measure_chunks (chunks : List RenderedChunk) : Nat :=
  measureLoop 0 false 0 chunks

/-- `largest_chunk` in `src/renderer/common.rs`. -/
def largest_chunk (chunks : List RenderedChunk) : Nat :=
  (chunks.map (fun c => c.width)).foldr max 0

/-- Loop state of `wrap_chunks` in `src/renderer/common.rs`. -/
structure WrapSt where
  i : Nat
  lines : List (List RenderedChunk)
  current_line : List RenderedChunk
  current_line_will_wrap : Bool
  line_width : Nat
  last_pad_right : Bool
  last_break_after : Bool
  last_force_break_after : Bool

/-- The `while let Some(chunk)` loop of `wrap_chunks`
(`src/renderer/common.rs` lines 228-285), translated clause by clause.
Note that on the wrap branch the source resets `last_pad_right` and
`last_break_after` to `false` instead of recording the wrapped chunk's own
flags. -/
def wrapLoop (max_width : Nat) : WrapSt → List RenderedChunk →
    List (List RenderedChunk)
  | st, [] => st.lines ++ [st.current_line]
  | st, c :: rest =>
    let padded_width :=
      (if decide (0 < st.i) && (st.last_pad_right || c.pad_left)
        then 1 else 0) + c.width
    let wrap_length := decide (max_width < st.line_width + padded_width)
    let wrap_early := st.current_line_will_wrap && st.last_break_after
    let wrap_slightly_early :=
      match rest.head? with
      | some next_chunk =>
        (!c.pad_right && !next_chunk.pad_left) &&
          decide (max_width < st.line_width + padded_width + next_chunk.width)
      | none => false
    let should_wrap :=
      wrap_length || wrap_early || wrap_slightly_early ||
        st.last_force_break_after
    if 0 < st.line_width ∧ should_wrap = true then
      wrapLoop max_width
        { i := st.i + 1
          lines := st.lines ++ [st.current_line]
          current_line := [c]
          current_line_will_wrap := decide (max_width < measure_chunks rest)
          line_width := padded_width
          last_pad_right := false
          last_break_after := false
          last_force_break_after := c.force_break_after }
        rest
    else
      wrapLoop max_width
        { i := st.i + 1
          lines := st.lines
          current_line := st.current_line ++ [c]
          current_line_will_wrap := st.current_line_will_wrap
          line_width := st.line_width + padded_width
          last_pad_right := c.pad_right
          last_break_after := c.break_after
          last_force_break_after := c.force_break_after }
        rest

/-- `wrap_chunks` in `src/renderer/common.rs`. -/
def wrap_chunks (chunks : List RenderedChunk) (max_width : Nat) :
    List (List RenderedChunk) :=
  wrapLoop max_width
    ⟨0, [], [], decide (max_width < measure_chunks chunks), 0,
      false, false, false⟩
    chunks

/-- `fixed_width` in `src/renderer/common.rs`. -/
def fixed_width : ChunkKind → Option Nat
  | .Date => some 10
  | .Time => some 8
  | .Level _ => some 7
  | _ => none

/-- `align` in `src/renderer/common.rs`: Rust `format!` width padding pads
with spaces up to `width` and never truncates. -/
def align (content : String) (width : Nat) : ChunkAlignment → String
  | .Left => content ++ spacesStr (width - content.length)
  | .Right => spacesStr (width - content.length) ++ content

/-- `bucketize` in `src/renderer/common.rs`: the loop pushes each chunk to
the vec of its slot, preserving order, which is exactly a triple of
filters. -/
def bucketize (chunks : List Chunk) :
    List Chunk × List Chunk × List Chunk :=
  (chunks.filter (fun c => c.slot = ChunkSlot.Left),
   chunks.filter (fun c => c.slot = ChunkSlot.Center),
   chunks.filter (fun c => c.slot = ChunkSlot.Right))

/-- `prune` in `src/renderer/common.rs`: keep the chunks with
`weight >= min`. -/
def prune (chunks : List Chunk) (min : Int) : List Chunk :=
  chunks.filter (fun c => min ≤ c.weight)

/-- `prune_level` in `src/renderer/common.rs`. -/
def prune_level : Option Nat → ChunkWeight
  | some width =>
    if width < 60 then .High
    else if width < 80 then .Medium
    else if width < 100 then .Normal
    else .Low
  | none => .Low

/-- The pruning stage of `styled_render` (`src/renderer/common.rs` lines
490-500): compute the minimum weight from `prune_level(wrap_width)`,
bucket the entry's chunks by slot and prune each bucket.  The later layout
stages never add or drop chunks, so this determines exactly which chunks
`styled_render` keeps. -/
def styledPruned (chunks : List Chunk) (wrap_width : Option Nat) :
    List Chunk × List Chunk × List Chunk :=
  let min_weight := (prune_level wrap_width).value
  let (left, center, right) := bucketize chunks
  (prune left min_weight, prune center min_weight, prune right min_weight)

/-! ## Plain rendering: `src/renderer/plain.rs` -/

mutual

/-- `plain_render_chunk` in `src/renderer/plain.rs`: when the chunk has a
value, emit one `RenderedChunk` whose content is the value aligned to the
kind's fixed width (if any) and whose width is the content's char count;
then recurse into the children and append their renderings. -/
def plain_render_chunk : Chunk → List RenderedChunk
  | .mk kind _ alignment pl pr ba fba _ weight v children =>
    (match v with
     | some value =>
       let content := match fixed_width kind with
         | some w => align value w alignment
         | none => value
       [⟨content, content.length, pl, pr, ba, fba, kind, weight, alignment⟩]
     | none => []) ++ plainRenderChildren children

/-- The `children.iter().flat_map` part of `plain_render_chunk`. -/
def plainRenderChildren : List Chunk → List RenderedChunk
  | [] => []
  | c :: rest => plain_render_chunk c ++ plainRenderChildren rest

end

mutual

/-- Holds when no chunk in the tree has a kind with a fixed width
(`Date`, `Time`, `Level`). -/
def noFixedKind : Chunk → Bool
  | .mk kind _ _ _ _ _ _ _ _ _ children =>
    (fixed_width kind).isNone && noFixedKindList children

/-- List version of `noFixedKind`. -/
def noFixedKindList : List Chunk → Bool
  | [] => true
  | c :: rest => noFixedKind c && noFixedKindList rest

end

/-! ## Klog parser: `src/parser/klog.rs` -/

/-- `map_klog_level` in `src/parser/klog.rs`. -/
def map_klog_level : Char → Option LogLevel
  | 'D' => some .Debug
  | 'I' => some .Info
  | 'W' => some .Warning
  | 'E' => some .Error
  | 'F' => some .Fatal
  | _ => none

/-- Chars matched by the regex class `[\d\.]`. -/
def isDigitOrDot (c : Char) : Bool := c.isDigit || c = '.'

/-- The capture groups of the klog regex
`^([A-Z])(\d{4} \d{2}:\d{2}:[\d\.]+)\s+(\d+) ([\S.]+:\d+)] (.+)$` from
`src/parser/klog.rs`, as a deterministic matcher: the level letter, the
year-less timestamp, the thread id digits, the `file:line` caller (the
maximal non-whitespace token, which the regex requires to be followed by
`"] "` and to end in `:` plus digits) and the non-empty message text. -/
def klogCaptures (line : String) :
    Option (Char × String × List Char × String × String) :=
  match line.toList with
  | c1 :: d1 :: d2 :: d3 :: d4 :: ' ' :: h1 :: h2 :: ':' :: mi1 :: mi2 ::
      ':' :: rest =>
    if !(c1.isUpper && d1.isDigit && d2.isDigit && d3.isDigit && d4.isDigit
         && h1.isDigit && h2.isDigit && mi1.isDigit && mi2.isDigit) then
      none
    else
      let secs := rest.takeWhile isDigitOrDot
      let rest1 := rest.dropWhile isDigitOrDot
      if secs = [] then none else
      let ws := rest1.takeWhile Char.isWhitespace
      let rest2 := rest1.dropWhile Char.isWhitespace
      if ws = [] then none else
      let tid := rest2.takeWhile Char.isDigit
      let rest3 := rest2.dropWhile Char.isDigit
      if tid = [] then none else
      match rest3 with
      | ' ' :: rest4 =>
        let tok := rest4.takeWhile (fun c => !c.isWhitespace)
        let rest5 := rest4.dropWhile (fun c => !c.isWhitespace)
        match tok.getLast? with
        | some ']' =>
          let caller := tok.dropLast
          let ds := caller.reverse.takeWhile Char.isDigit
          let pre := caller.reverse.dropWhile Char.isDigit
          if ds = [] then none else
          match pre with
          | ':' :: base =>
            if base = [] then none else
            match rest5 with
            | ' ' :: text =>
              if text = [] then none else
              some (c1,
                String.mk (d1 :: d2 :: d3 :: d4 :: ' ' :: h1 :: h2 :: ':' ::
                  mi1 :: mi2 :: ':' :: secs),
                tid, String.mk caller, String.mk text)
            | _ => none
          | _ => none
        | _ => none
      | _ => none
  | _ => none

/-- Fields a chrono format match can fill for the klog format (no year:
the format string contains no year directive). -/
structure ChronoKlogFields where
  month : Nat
  day : Nat
  hour : Nat
  minute : Nat
  second : Nat
  nanos : Nat
deriving DecidableEq, Repr

/-- Digits to a number. -/
def digitsToNat (cs : List Char) : Nat :=
  cs.foldl (fun a c => a * 10 + (c.toNat - '0'.toNat)) 0

/-- Modelled from the chrono crate (external to this repository): textual
match of the exact format string `"%m%d %H:%M:%S:%.f"` that
`src/parser/klog.rs` line 55 passes to `Utc.datetime_from_str`.  Each of
`%m %d %H %M %S` consumes two digits, literal characters must match
exactly — including the `':'` the format places before the fraction — and
`%.f` consumes either nothing or a `'.'` followed by digits.  A klog
timestamp such as `0703 17:19:11.688460` has a `'.'` where the format
demands the literal `':'`, so the match fails. -/
def klogFormatMatch (cs : List Char) : Option ChronoKlogFields :=
  match cs with
  | mo1 :: mo2 :: dd1 :: dd2 :: ' ' :: hh1 :: hh2 :: ':' :: mi1 :: mi2 ::
      ':' :: ss1 :: ss2 :: ':' :: frac =>
    if !(mo1.isDigit && mo2.isDigit && dd1.isDigit && dd2.isDigit &&
         hh1.isDigit && hh2.isDigit && mi1.isDigit && mi2.isDigit &&
         ss1.isDigit && ss2.isDigit) then
      none
    else
      let fields := fun nanos => ChronoKlogFields.mk
        (digitsToNat [mo1, mo2]) (digitsToNat [dd1, dd2])
        (digitsToNat [hh1, hh2]) (digitsToNat [mi1, mi2])
        (digitsToNat [ss1, ss2]) nanos
      match frac with
      | [] => some (fields 0)
      | '.' :: ds =>
        if ds ≠ [] ∧ ds.all Char.isDigit then some (fields (digitsToNat ds))
        else none
      | _ => none
  | _ => none

/-- Modelled from the chrono crate (external to this repository):
`Utc.datetime_from_str` first matches the text against the format and then
asks the filled `Parsed` for a complete UTC datetime.  The klog format
`"%m%d %H:%M:%S:%.f"` never fills a year, and chrono refuses to build a
datetime without one (`ParseError(NotEnough)`), so even a successful
textual match yields no timestamp.  The source (`src/parser/klog.rs`
lines 53-56) passes the capture directly, without prepending the current
year. -/
def klog_datetime_from_str (s : String) : Option DateTimeUtc :=
  match klogFormatMatch s.toList with
  | some _fields => none
  | none => none

/-- `parse_klog` in `src/parser/klog.rs`.  The thread id capture is `\d+`,
so its `parse::<isize>().ok()` succeeds with the digit value (overflow of
91-bit-plus ids is out of scope) and the `threadId` entry is always
inserted.  Note the struct literal at lines 75-83 gives no `raw`
field. -/
def parse_klog (line : String) (meta : Option ReaderMetadata) :
    Option Message :=
  match klogCaptures line with
  | some (levelChar, timestamp_str, tid, caller, text) =>
    let level := map_klog_level levelChar
    let reader_timestamp : Option DateTimeUtc :=
      match meta with
      | some m => m.timestamp
      | none => none
    let timestamp :=
      match klog_datetime_from_str timestamp_str with
      | some ts => some ts
      | none => reader_timestamp
    let metadata :=
      [("threadId", Json.num (digitsToNat tid))] ++
        [("caller", Json.str caller)]
    some { kind := .Klog, timestamp := timestamp, level := level,
           raw := none, text := some text, metadata := metadata,
           reader_metadata := meta, mapped_fields := [] }
  | none => none

/-! ## JSON field mapping: `src/parser/json.rs` -/

def TIMESTAMP_FIELDS : List String := ["timestamp", "@timestamp", "time"]

def LEVEL_FIELDS : List String := ["level"]

def TEXT_FIELDS : List String := ["text", "msg", "message"]

/-- `Map::get` of `serde_json` on a decoded object. -/
def mapGet (map : List (String × Json)) (key : String) : Option Json :=
  (map.find? (fun p => p.1 = key)).map (fun p => p.2)

/-- `get_value` in `src/parser/json.rs`. -/
def get_value (map : List (String × Json)) :
    List String → Option (String × Json)
  | [] => none
  | key :: keys =>
    match mapGet map key with
    | some val => some (key, val)
    | none => get_value map keys

/-- `get_timestamp` in `src/parser/json.rs`; the rfc3339 / rfc2822 /
freeform parser chain (chrono and dtparse crates) is the external
`ts_parse` argument. -/
def get_timestamp (ts_parse : String → Option DateTimeUtc)
    (msg : List (String × Json)) : Option (String × DateTimeUtc) :=
  match get_value msg TIMESTAMP_FIELDS with
  | some (k, v) =>
    match v.as_str with
    | some s => (ts_parse s).map (fun dt => (k, dt))
    | none => none
  | none => none

/-- The body of `parse_json` in `src/parser/json.rs` after the
`serde_json::from_str` decode (the decode is an external crate; the
decoded object is the `msg` argument).  The Logrus parser delegates its
key/value document to this same field-mapping logic tagged
`MessageKind::Logrus`, hence the `kind` argument.  Note the `Message`
literal at lines 158-162 gives no `raw` field. -/
def parse_document (ts_parse : String → Option DateTimeUtc)
    (kind : MessageKind) (msg : List (String × Json))
    (meta : Option ReaderMetadata) : Message :=
  let mf0 : List (String × MappingField) := []
  let tsStep :=
    match get_timestamp ts_parse msg with
    | some (key, ts) => (some ts, mf0 ++ [(key, MappingField.Timestamp)])
    | none => (none, mf0)
  let timestamp := tsStep.1
  let mf1 := tsStep.2
  let levelStep :=
    match get_value msg LEVEL_FIELDS with
    | some (key, v) =>
      match v.as_str.bind LogLevel.from_str with
      | some l => (some l, mf1 ++ [(key, MappingField.Level)])
      | none => ((none : Option LogLevel), mf1)
    | none => (none, mf1)
  let level := levelStep.1
  let mf2 := levelStep.2
  let textStep :=
    match get_value msg TEXT_FIELDS with
    | some (key, v) =>
      match v.as_str with
      | some t =>
        let trimmed := t.trim
        (if trimmed = "" then none else some trimmed,
         mf2 ++ [(key, MappingField.Text)])
      | none => ((none : Option String), mf2)
    | none => (none, mf2)
  let text := textStep.1
  let mapped_fields := textStep.2
  let metadata := msg.filter (fun p => !(mapped_fields.any (fun q => q.1 = p.1)))
  { kind := kind, timestamp := timestamp, level := level, raw := none,
    text := text, metadata := metadata, reader_metadata := meta,
    mapped_fields := mapped_fields }

/-! ## Regex parser: `src/parser/regex.rs` -/

/-- A compiled `regex::Regex` (external crate), abstracted to its named
capture groups and its capture function: `captures line` is `none` when
the pattern does not match, otherwise a lookup from group name to the
matched text. -/
structure RegexPattern where
  capture_names : List String
  captures : String → Option (String → Option String)

/-- `RegexMapping` in `src/config.rs`. -/
structure RegexMapping where
  pattern : RegexPattern
  datetime : Option String
  datetime_prepend : Option String

/-- `parse_mapping` in `src/parser/regex.rs`.  The chrono-backed
`parse_datetime` (rfc2822 / rfc3339 / strftime with optional
`datetime_prepend` of the current time) is the external `dt_parse`
argument.  Note `mapped_fields: HashMap::new()` and
`raw: line.to_string()` in the `Message` literal at lines 111-117. -/
def parse_mapping
    (dt_parse : String → Option String → String → Option DateTimeUtc)
    (line : String) (mapping : RegexMapping)
    (meta : Option ReaderMetadata) : Option Message :=
  match mapping.pattern.captures line with
  | none => none
  | some caps =>
    let group_names := mapping.pattern.capture_names
    let tsStep :=
      match caps "datetime" with
      | some datetime =>
        match mapping.datetime with
        | some format =>
          (dt_parse format mapping.datetime_prepend datetime,
           group_names.erase "datetime")
        | none => ((none : Option DateTimeUtc), group_names)
      | none => (none, group_names)
    let timestamp := tsStep.1
    let gn1 := tsStep.2
    let textStep :=
      match caps "text" with
      | some t => (some t, gn1.erase "text")
      | none => ((none : Option String), gn1)
    let text := textStep.1
    let gn2 := textStep.2
    let levelStep :=
      match caps "level" with
      | some l => (LogLevel.from_str l, gn2.erase "level")
      | none => ((none : Option LogLevel), gn2)
    let level := levelStep.1
    let gn3 := levelStep.2
    let metadata := gn3.filterMap
      (fun name => (caps name).map (fun m => (name, Json.str m)))
    some { kind := .Regex, timestamp := timestamp, level := level,
           raw := some line, text := text, metadata := metadata,
           reader_metadata := meta, mapped_fields := [] }

/-! ## Plain parser: `src/parser/plain.rs` -/

/-- Splits a line into its maximal `\w+` words (for the word-boundary
level regexes of `get_log_level`; the regex crate's `\b` sits exactly at
the transitions between word and non-word characters). -/
def splitWordsAux : List Char → List Char → List String
  | [], acc => if acc = [] then [] else [String.mk acc.reverse]
  | c :: rest, acc =>
    if c.isAlphanum || c = '_' then splitWordsAux rest (c :: acc)
    else if acc = [] then splitWordsAux rest []
    else String.mk acc.reverse :: splitWordsAux rest []

def splitWords (line : String) : List String := splitWordsAux line.toList []

/-- `get_log_level` in `src/parser/plain.rs`: the first matching pattern
of the case-insensitive word-bounded regex set, in priority order
fatal, err/error, warn/warning, info, debug/dbg. -/
def get_log_level (line : String) : Option LogLevel :=
  let words := (splitWords line).map String.toLower
  if words.contains "fatal" then some .Fatal
  else if words.contains "err" || words.contains "error" then some .Error
  else if words.contains "warn" || words.contains "warning" then some .Warning
  else if words.contains "info" then some .Info
  else if words.contains "debug" || words.contains "dbg" then some .Debug
  else none

/-- `crappy_is_false_positive` in `src/parser/plain.rs`.  The
`timestampiness > 0.75` f32 comparison is modelled exactly on the
rationals (`4 * consumed > 3 * line`). -/
def crappy_is_false_positive (line : String)
    (maybe_tokens : Option (List String)) : Bool :=
  match maybe_tokens with
  | none => false
  | some tokens =>
    let len_tokens := (tokens.map String.length).sum
    let len_line := line.length
    let len_consumed_tokens : Int := (len_line : Int) - (len_tokens : Int)
    if len_line = 0 then true
    else if len_consumed_tokens < 15 then true
    else if 60 < len_consumed_tokens then true
    else if 3 * (len_line : Int) < 4 * len_consumed_tokens then true
    else false

/-- `get_meta_timestamp` in `src/parser/plain.rs`. -/
def get_meta_timestamp : Option ReaderMetadata → Option DateTimeUtc
  | some m => m.timestamp
  | none => none

/-- `parse_plain` in `src/parser/plain.rs`: always succeeds (the source
returns `Ok(Some(..))` unconditionally).  The dtparse fuzzy parser
combined with `normalize_datetime` is the external `fuzzy` argument,
returning the normalized instant and the unconsumed tokens.  Note the
`Message` literal at lines 128-136 gives no `raw` field. -/
def parse_plain (fuzzy : String → Option (DateTimeUtc × Option (List String)))
    (line : String) (meta : Option ReaderMetadata) : Message :=
  let timestamp :=
    match get_meta_timestamp meta with
    | some ts => some ts
    | none =>
      match fuzzy line with
      | some (datetime, tokens) =>
        if crappy_is_false_positive line tokens then none else some datetime
      | none => none
  { kind := .Plain, timestamp := timestamp, level := get_log_level line,
    raw := none, text := some line, metadata := [],
    reader_metadata := meta, mapped_fields := [] }

/-! ## Path cleaning and context classifier:
`src/classifier/util.rs`, `src/classifier/context.rs` -/

/-- Split on the regex `[/\\]`: every separator is a boundary, empty parts
included; an empty string yields one empty part. -/
def splitPathAux : List Char → List Char → List String
  | [], acc => [String.mk acc.reverse]
  | c :: rest, acc =>
    if c = '/' || c = '\\' then String.mk acc.reverse :: splitPathAux rest []
    else splitPathAux rest (c :: acc)

def splitPath (path : String) : List String := splitPathAux path.toList []

/-- `clean_path` in `src/classifier/util.rs`: the loop keeps the last
three parts in `last_a`/`last_b`/`last_c` and the buffer joins the
surviving parts with `/`. -/
def clean_path (path : String) : String :=
  let final := (splitPath path).foldl
    (fun (st : Option String × Option String × Option String) part =>
      match st with
      | (none, b, c) => (some part, b, c)
      | (some a, none, c) => (some part, some a, c)
      | (some a, some b, _) => (some part, some a, some b))
    (none, none, none)
  match final with
  | (some a, some b, some c) => c ++ "/" ++ b ++ "/" ++ a
  | (some a, some b, none) => b ++ "/" ++ a
  | (some a, none, _) => a
  | (none, _, _) => ""

/-- `context_chunk` in `src/classifier/context.rs`. -/
def context_chunk (context : String) : Chunk :=
  .mk .Context .Right .Right true true false true false
    ChunkWeight.Low.value (some context) []

/-- `classify_context` in `src/classifier/context.rs`; the mutated
`consumed_fields` set is returned alongside the chunks. -/
def classify_context (message : Message) (fields : List String) :
    List Chunk × List String :=
  match (mapGet message.metadata "file").bind Json.as_str with
  | some file => ([context_chunk (clean_path file)], fields.insert "file")
  | none =>
    match (mapGet message.metadata "caller").bind Json.as_str with
    | some caller => ([context_chunk caller], fields.insert "caller")
    | none => ([], fields)

/-! ## Interactive state: `src/renderer/interactive/state.rs` -/

/-- `MessageEntry` from `src/renderer/types.rs`: a parsed message together
with its classified chunks. -/
structure MessageEntry where
  message : Message
  chunks : List Chunk

/-- `FilteredEntry` in `src/renderer/interactive/state.rs`; the weak
reference is modelled by the entry itself (the entry list is append-only
and nothing is dropped within the actions under study). -/
structure FilteredEntry where
  index : Nat
  entry : MessageEntry

/-- The fields of `RenderState` the state actions read or write: the
shared `entries`, `filters` and `filtered_entries` cells, the
`log.selection` the filter actions clear, and `eof`.  A `Filter` trait
object is its predicate over `Message`. -/
structure RenderState where
  entries : List MessageEntry
  filters : List (Message → Bool)
  filtered_entries : List FilteredEntry
  selection : Option Nat
  eof : Bool

/-- `filter_pass` in `src/renderer/interactive/state.rs`. -/
def filter_pass (state : RenderState) (entry : MessageEntry) : Bool :=
  if state.filters.isEmpty then true
  else state.filters.all (fun f => f entry.message)

/-- The recomputation both `add_filter` and `pop_filter` perform:
enumerate `entries`, keep those passing `filter_pass`, and pair each with
its index. -/
def recomputeFiltered (state : RenderState) : List FilteredEntry :=
  (state.entries.enum.filter (fun p => filter_pass state p.2)).map
    (fun p => FilteredEntry.mk p.1 p.2)

namespace actions

/-- `actions::add_filter` in `src/renderer/interactive/state.rs`: push the
filter, clear the selection, recompute `filtered_entries` against the
updated filter stack. -/
def add_filter (state : RenderState) (filter : Message → Bool) :
    RenderState :=
  let state1 := { state with
    filters := state.filters ++ [filter]
    selection := none }
  { state1 with filtered_entries := recomputeFiltered state1 }

/-- `actions::pop_filter` in `src/renderer/interactive/state.rs`: clear
the selection, pop the last filter, recompute (the source's two branches
of the `is_empty` split are identical). -/
def pop_filter (state : RenderState) : RenderState :=
  let state1 := { state with
    filters := state.filters.dropLast
    selection := none }
  { state1 with filtered_entries := recomputeFiltered state1 }

/-- `actions::add_entry` in `src/renderer/interactive/state.rs`: always
append to `entries`; when the entry passes the current filters, also
append `{index: entries.len() - 1, entry}` to `filtered_entries`. -/
def add_entry (state : RenderState) (entry : MessageEntry) : RenderState :=
  if filter_pass state entry then
    { state with
      entries := state.entries ++ [entry]
      filtered_entries :=
        state.filtered_entries ++ [FilteredEntry.mk state.entries.length entry] }
  else
    { state with entries := state.entries ++ [entry] }

end actions

/-! ## Reordering buffer: `src/reader/ordered.rs` -/

/-- `TimestampedEntry` in `src/reader/ordered.rs`: the monotonic receive
instant (ms), the `timestamp_millis` sort key, and the wrapped entry. -/
structure TimestampedEntry where
  received : Nat
  timestamp : Int
  entry : MessageEntry

/-- `TimestampedEntry::new` in `src/reader/ordered.rs`: the key is the
message timestamp, else the reader-metadata timestamp, else the current
wall clock (`Utc::now()`, passed in as `utc_now`). -/
def TimestampedEntry.new (utc_now : Int) (received : Nat)
    (entry : MessageEntry) : TimestampedEntry :=
  let timestamp :=
    match entry.message.timestamp with
    | some ts => ts
    | none =>
      match entry.message.reader_metadata with
      | some meta =>
        match meta.timestamp with
        | some ts => ts
        | none => utc_now
      | none => utc_now
  ⟨received, timestamp, entry⟩

/-- Push into the `BinaryHeap<TimestampedEntry>` of `read_ordered`.  The
intentionally inverted `Ord` makes it a min-heap on `timestamp`; the heap
is modelled as a list sorted by ascending `timestamp` whose head is the
top.  Rust's BinaryHeap leaves the order of equal keys unspecified; this
model commits to FIFO among equal keys, one of the legal behaviours. -/
def heapPush (e : TimestampedEntry) :
    List TimestampedEntry → List TimestampedEntry
  | [] => [e]
  | x :: xs =>
    if x.timestamp ≤ e.timestamp then x :: heapPush e xs else e :: x :: xs

/-- The eviction loop of `read_ordered` (`src/reader/ordered.rs` lines
127-140): while the top of the heap has been held at least
`buffer_duration` of monotonic time, pop and send it; stop at the first
top that has not. -/
def drainHeap (buffer : Nat) (now : Nat) :
    List TimestampedEntry → List TimestampedEntry × List TimestampedEntry
  | [] => ([], [])
  | e :: rest =>
    if e.received + buffer ≤ now then
      let res := drainHeap buffer now rest
      (e :: res.1, res.2)
    else ([], e :: rest)

/-- One iteration of the `'outer` loop of `read_ordered` for the messages
that reach the heap: drain the ready arrivals into the heap, then run the
eviction loop at the current instant.  (Internal messages bypass the heap
and are forwarded immediately, lines 109-113, and Eof forwards and
discards the heap, lines 118-122; neither enters the buffer the ordering
claim is about.)  Returns the new heap and this iteration's emissions. -/
def orderedTick (buffer : Nat) (st : List TimestampedEntry)
    (arrivals : List TimestampedEntry) (now : Nat) :
    List TimestampedEntry × List TimestampedEntry :=
  let st1 := arrivals.foldl (fun s e => heapPush e s) st
  let res := drainHeap buffer now st1
  (res.2, res.1)

/-- A run of the loop: a list of iterations, each with its arrival batch
and its `Instant::now()` value; returns the final heap and the
concatenated emissions. -/
def orderedRun (buffer : Nat) (st : List TimestampedEntry) :
    List (List TimestampedEntry × Nat) →
      List TimestampedEntry × List TimestampedEntry
  | [] => (st, [])
  | (arrivals, now) :: ticks =>
    let stepRes := orderedTick buffer st arrivals now
    let runRes := orderedRun buffer stepRes.1 ticks
    (runRes.1, stepRes.2 ++ runRes.2)

/-- Ascending order on the heap keys. -/
def tsLe (a b : TimestampedEntry) : Prop := a.timestamp ≤ b.timestamp

instance : DecidableRel tsLe := fun a b => inferInstanceAs (Decidable (a.timestamp ≤ b.timestamp))

/-! # Theorems settling the claims -/

/-! ## C3: klog parsing of the concrete example line -/

/-- The concrete klog line of the spec's scenario 3. -/
def klogLine : String :=
  "I0703 17:19:11.688460       1 controller.go:293] hello world"

/-- C3: on the example klog line, `parse_klog` produces kind `Klog`,
level `Info`, text `"hello world"` and metadata
`{threadId: 1, caller: "controller.go:293"}` as the claim states, but its
timestamp is `none`: the source passes the year-less capture directly to
`Utc.datetime_from_str` with format `"%m%d %H:%M:%S:%.f"` — no current
year is prepended, the format has no year directive, and it demands a
literal `':'` where klog writes `'.'` — so the parse always fails and the
absent reader timestamp is used.  The claim's current-year timestamp
(month 07, day 03) is never produced. -/
theorem c3_klog_timestamp_never_parses :
    parse_klog klogLine none =
      some { kind := .Klog, timestamp := none, level := some .Info,
             raw := none, text := some "hello world",
             metadata := [("threadId", Json.num 1),
                          ("caller", Json.str "controller.go:293")],
             reader_metadata := none, mapped_fields := [] } := by
  rfl

/-! ## C5: the `raw` field -/

/-- C5: the parser chain does not preserve the input line in `raw`: on the
example klog line the produced `Message` has `raw` unset (the struct
literals in `parse_json`, `parse_klog` and `parse_plain` omit the
mandatory `raw` field declared in `src/parser/types.rs`), while
`parse_mapping` — alone — sets `raw` to the input line. -/
theorem c5_raw_not_preserved :
    ((parse_klog klogLine none).map Message.raw = some none) ∧
    (∀ fuzzy line meta, (parse_plain fuzzy line meta).raw = none) ∧
    (∀ dt_parse line mapping meta,
      (parse_mapping dt_parse line mapping meta).map Message.raw =
        (mapping.pattern.captures line).map (fun _ => some line)) := by
  refine ⟨rfl, fun fuzzy line meta => rfl, fun dt_parse line mapping meta => ?_⟩
  unfold parse_mapping
  cases mapping.pattern.captures line <;> rfl

/-! ## C7: weight-based pruning thresholds -/

/-- A center-slot chunk with weight below `ChunkWeight::Low`. -/
def c7LowChunk : Chunk :=
  .mk .Other .Center .Left false false false false false (-20) (some "x") []

/-- C7 counterexample: with `wrap_width` unknown the claim says no chunk
is pruned regardless of weight, but `prune_level(None)` is `Low` and the
pruning stage of `styled_render` drops a weight `-20` chunk. -/
theorem c7_counterexample :
    prune_level none = ChunkWeight.Low ∧
    c7LowChunk ∈ [c7LowChunk] ∧
    styledPruned [c7LowChunk] none = ([], [], []) :=
  ⟨rfl, List.mem_singleton.mpr rfl, rfl⟩

/-- The numeric pruning threshold as amended: `High` (20) below width 60,
`Medium` (10) below 80, `Normal` (0) below 100, and `Low` (-10) both for
widths of at least 100 and when the width is unknown. -/
def c7Threshold : Option Nat → Int
  | some width =>
    if width < 60 then 20 else if width < 80 then 10
    else if width < 100 then 0 else -10
  | none => -10

/-- Helper: `prune_level` realizes the numeric thresholds. -/
theorem prune_level_value (wrap_width : Option Nat) :
    (prune_level wrap_width).value = c7Threshold wrap_width := by
  cases wrap_width with
  | none => rfl
  | some width =>
    simp only [prune_level, c7Threshold]
    split_ifs <;> rfl

/-- C7 amended: the pruning stage of `styled_render` keeps exactly the
chunks whose weight reaches the threshold — High (20) when
`wrap_width < 60`, Medium (10) when `60 ≤ wrap_width < 80`, Normal (0)
when `80 ≤ wrap_width < 100`, Low (-10) otherwise — and when `wrap_width`
is unknown the `Low` threshold still applies (chunks with weight below
-10 are pruned), exactly as for widths of at least 100. -/
theorem c7_amended (chunks : List Chunk) (wrap_width : Option Nat)
    (c : Chunk) :
    (c ∈ (styledPruned chunks wrap_width).1 ∨
     c ∈ (styledPruned chunks wrap_width).2.1 ∨
     c ∈ (styledPruned chunks wrap_width).2.2) ↔
      (c ∈ chunks ∧ c7Threshold wrap_width ≤ c.weight) := by
  simp only [styledPruned, bucketize, prune, List.mem_filter,
    prune_level_value, decide_eq_true_eq]
  constructor
  · rintro (⟨⟨hc, hs⟩, hw⟩ | ⟨⟨hc, hs⟩, hw⟩ | ⟨⟨hc, hs⟩, hw⟩) <;>
      exact ⟨hc, hw⟩
  · rintro ⟨hc, hw⟩
    cases hs : c.slot with
    | Left => exact Or.inl ⟨⟨hc, rfl⟩, hw⟩
    | Center => exact Or.inr (Or.inl ⟨⟨hc, rfl⟩, hw⟩)
    | Right => exact Or.inr (Or.inr ⟨⟨hc, rfl⟩, hw⟩)

/-! ## C8: the fallback context classifier -/

/-- A message whose metadata carries an already-consumed `caller`. -/
def c8Message : Message :=
  { kind := .Klog, timestamp := none, level := none, raw := none,
    text := none, metadata := [("caller", Json.str "a/b/c/d/e.go")],
    reader_metadata := none, mapped_fields := [] }

/-- C8 counterexample: with `caller` already in the consumed set,
`classify_context` still emits a `Context` chunk — the source never
consults the set — and the emitted value is the raw caller string, not
`clean_path` of it. -/
theorem c8_counterexample :
    (classify_context c8Message ["caller"]).1 =
      [context_chunk "a/b/c/d/e.go"] ∧
    "caller" ∈ ["caller"] ∧
    clean_path "a/b/c/d/e.go" = "c/d/e.go" ∧
    (context_chunk "a/b/c/d/e.go").value ≠
      some (clean_path "a/b/c/d/e.go") := by
  refine ⟨rfl, List.mem_singleton.mpr rfl, rfl, ?_⟩
  intro h
  simp only [context_chunk, Chunk.value, Option.some.injEq] at h
  exact absurd h (by decide)

/-- C8 amended: `classify_context` emits its right-slot `Context` chunk
whenever the `file` (or else `caller`) metadata field is present with a
string value, regardless of whether the field was already consumed by an
earlier classifier (the emitted chunks do not depend on the consumed set
at all); the value is `clean_path(file)` for `file` but the raw,
uncleaned string for `caller`; the used field is added to the consumed
set. -/
theorem c8_amended :
    (∀ message fields file,
      (mapGet message.metadata "file").bind Json.as_str = some file →
      classify_context message fields =
        ([context_chunk (clean_path file)], fields.insert "file")) ∧
    (∀ message fields caller,
      (mapGet message.metadata "file").bind Json.as_str = none →
      (mapGet message.metadata "caller").bind Json.as_str = some caller →
      classify_context message fields =
        ([context_chunk caller], fields.insert "caller")) ∧
    (∀ message fields fields2,
      (classify_context message fields).1 =
        (classify_context message fields2).1) := by
  refine ⟨?_, ?_, ?_⟩
  · intro message fields file h
    simp [classify_context, h]
  · intro message fields caller h1 h2
    simp [classify_context, h1, h2]
  · intro message fields fields2
    unfold classify_context
    cases (mapGet message.metadata "file").bind Json.as_str with
    | some file => rfl
    | none =>
      cases (mapGet message.metadata "caller").bind Json.as_str <;> rfl

/-- C8 witness: the amended theorem applied at a concrete message with a
`file` metadata field and an empty consumed set. -/
theorem c8_witness :
    classify_context
      { kind := .Json, timestamp := none, level := none, raw := none,
        text := none, metadata := [("file", Json.str "x/y/z/w.go")],
        reader_metadata := none, mapped_fields := [] } [] =
      ([context_chunk (clean_path "x/y/z/w.go")], ["file"]) :=
  c8_amended.1 _ [] "x/y/z/w.go" rfl

/-! ## C2: wrapped lines fitting the width -/

/-- A chunk filling a whole line of width 6. -/
def c2a : RenderedChunk :=
  ⟨"aaaaaa", 6, false, false, false, false, .Other, 0, .Left⟩

/-- A chunk with `pad_right` set. -/
def c2c : RenderedChunk :=
  ⟨"ccc", 3, false, true, false, false, .Other, 0, .Left⟩

/-- A plain chunk. -/
def c2d : RenderedChunk :=
  ⟨"ddd", 3, false, false, false, false, .Other, 0, .Left⟩

/-- C2: the wrap invariant fails.  On `[c2a, c2c, c2d]` with width 6,
`wrap_chunks` starts a fresh line with `c2c` but resets its notion of the
previous chunk's `pad_right` to `false` (the wrap branch of the loop,
`src/renderer/common.rs` lines 265-277, does not record the wrapped
chunk's flags), so it adds `c2d` as if no padding were needed; merging
that line inserts the space `c2c.pad_right` demands and yields width 7 >
6 on a line with two chunks, neither of which exceeds the width by
itself.  This contradicts both the claim and the function's own doc
comment ("splits a chunk list into potentially several lines, each of
which fits within the given max_width"). -/
theorem c2_wrapped_line_exceeds_width :
    wrap_chunks [c2a, c2c, c2d] 6 = [[c2a], [c2c, c2d]] ∧
    (merge_chunks [c2c, c2d] plainStyle).width = 7 ∧
    c2c.width ≤ 6 ∧ c2d.width ≤ 6 := by
  refine ⟨rfl, rfl, by decide, by decide⟩

/-! ## C10: measure_chunks versus merge_chunks -/

/-- A zero-width chunk with `pad_right` set. -/
def c10z : RenderedChunk :=
  ⟨"", 0, false, true, false, false, .Other, 0, .Left⟩

/-- An ordinary chunk. -/
def c10y : RenderedChunk :=
  ⟨"yyy", 3, false, false, false, false, .Other, 0, .Left⟩

/-- C10 counterexample: on a sequence containing a zero-width chunk the
cheap measurement disagrees with the full merge: `merge_chunks` skips
zero-width chunks entirely (`src/renderer/common.rs` lines 90-92) while
`measure_chunks` still honours their pad flags, so
`measure_chunks [c10z, c10y] = 4` but the merged width is 3. -/
theorem c10_counterexample :
    measure_chunks [c10z, c10y] = 4 ∧
    (merge_chunks [c10z, c10y] plainStyle).width = 3 ∧
    c10z.width = 0 :=
  ⟨rfl, rfl, rfl⟩

/-- Helper for C10: with no zero-width chunk in the remainder, the merge
loop and the measure loop accumulate the same width from the same
state. -/
theorem mergeLoop_width_eq_measureLoop (chunks : List RenderedChunk) :
    ∀ (i : Nat) (acc : MergeAcc), (∀ c ∈ chunks, c.width ≠ 0) →
      (mergeLoop i acc chunks).width =
        measureLoop i acc.last_child_pad_right acc.width chunks := by
  induction chunks with
  | nil => intro i acc _; rfl
  | cons c rest ih =>
    intro i acc h
    have hc : c.width ≠ 0 := h c (List.mem_cons_self c rest)
    have hrest : ∀ x ∈ rest, x.width ≠ 0 :=
      fun x hx => h x (List.mem_cons_of_mem c hx)
    simp only [mergeLoop, measureLoop, if_neg hc]
    rw [ih]
    exact hrest

/-- C10 amended: for every sequence of rendered chunks with no zero-width
chunk and every style profile, the cheap measurement agrees with the full
merge: `measure_chunks xs = (merge_chunks xs profile).width`.  The
equality fails in general for sequences containing zero-width chunks,
which `merge_chunks` skips but `measure_chunks` counts padding for. -/
theorem c10_amended (chunks : List RenderedChunk) (profile : StyleProfile)
    (h : ∀ c ∈ chunks, c.width ≠ 0) :
    measure_chunks chunks = (merge_chunks chunks profile).width := by
  show measureLoop 0 false 0 chunks =
    (mergeLoop 0 ⟨0, false, "", false, false, false⟩ chunks).width
  rw [mergeLoop_width_eq_measureLoop chunks 0 _ h]

/-- C10 witness: the amended equality applied to a concrete zero-free
sequence. -/
theorem c10_witness :
    measure_chunks [c2c, c2d] = (merge_chunks [c2c, c2d] plainStyle).width :=
  c10_amended [c2c, c2d] plainStyle (by decide)

/-! ## C1: the filtered-entries invariant -/

/-- The claim's invariant: `filtered_entries` is, in order, the
`{index, entry}` pairing of exactly the entries that pass every filter on
the stack. -/
def filteredInv (state : RenderState) : Prop :=
  state.filtered_entries =
    (state.entries.enum.filter
      (fun p => state.filters.all (fun f => f p.2.message))).map
      (fun p => FilteredEntry.mk p.1 p.2)

/-- Helper: `filter_pass`'s empty-stack shortcut agrees with `all`. -/
theorem filter_pass_eq_all (state : RenderState) (entry : MessageEntry) :
    filter_pass state entry = state.filters.all (fun f => f entry.message) := by
  unfold filter_pass
  cases state.filters <;> simp

/-- Helper: the recomputation both filter actions run realizes the
invariant's right-hand side. -/
theorem recomputeFiltered_eq (state : RenderState) :
    recomputeFiltered state =
      (state.entries.enum.filter
        (fun p => state.filters.all (fun f => f p.2.message))).map
        (fun p => FilteredEntry.mk p.1 p.2) := by
  unfold recomputeFiltered
  simp only [filter_pass_eq_all]

/-- C1: after `add_filter` or `pop_filter`, `filtered_entries` equals, in
order, the `{index, entry}` pairs of exactly the entries of the
authoritative list that pass every filter on the updated stack (both
actions recompute it from scratch); and `add_entry` preserves that
invariant, appending the `{len-1, entry}` pair exactly when the new entry
passes every filter. -/
theorem c1_filtered_entries_invariant :
    (∀ state filter, filteredInv (actions.add_filter state filter)) ∧
    (∀ state, filteredInv (actions.pop_filter state)) ∧
    (∀ state entry, filteredInv state →
      filteredInv (actions.add_entry state entry)) := by
  refine ⟨?_, ?_, ?_⟩
  · intro state filter
    show recomputeFiltered _ = _
    rw [recomputeFiltered_eq]
    rfl
  · intro state
    show recomputeFiltered _ = _
    rw [recomputeFiltered_eq]
    rfl
  · intro state entry h
    unfold actions.add_entry
    by_cases hp : filter_pass state entry = true
    · rw [if_pos hp]
      show state.filtered_entries ++ [FilteredEntry.mk state.entries.length entry] = _
      rw [h]
      rw [filter_pass_eq_all] at hp
      simp [List.enum_append, List.filter_append, hp]
    · rw [if_neg hp]
      show state.filtered_entries = _
      rw [h]
      rw [filter_pass_eq_all] at hp
      simp only [Bool.not_eq_true] at hp
      simp [List.enum_append, List.filter_append, hp]

/-- C1 witness: the invariant holds for the empty state and is carried by
`add_entry` at a concrete entry, applying the main theorem. -/
theorem c1_witness :
    filteredInv (RenderState.mk [] [] [] none false) ∧
    filteredInv (actions.add_entry (RenderState.mk [] [] [] none false)
      (MessageEntry.mk c8Message [])) :=
  ⟨by simp [filteredInv],
   c1_filtered_entries_invariant.2.2 _ _ (by simp [filteredInv])⟩

/-! ## C6: mapped fields never reappear in metadata -/

/-- Helper: keys of `mf` are absent from the keys of anything filtered by
"no key of mine occurs in `mf`". -/
theorem mappedKeys_disjoint_filtered (msg : List (String × Json))
    (mf : List (String × MappingField)) :
    (mf.map Prod.fst).Disjoint
      ((msg.filter (fun p => !(mf.any (fun q => q.1 = p.1)))).map
        Prod.fst) := by
  intro a ha hm
  simp only [List.mem_map, List.mem_filter] at ha hm
  obtain ⟨p, ⟨_, hnone⟩, hpa⟩ := hm
  obtain ⟨q, hq, hqa⟩ := ha
  have h2 : mf.any (fun q => q.1 = p.1) = true :=
    List.any_eq_true.mpr ⟨q, hq, by simp [hqa, hpa]⟩
  rw [h2] at hnone
  simp at hnone

/-- Helper: the metadata of a parsed document is the source object minus
the keys recorded in its own `mapped_fields`. -/
theorem parse_document_metadata_eq (ts_parse : String → Option DateTimeUtc)
    (kind : MessageKind) (msg : List (String × Json))
    (meta : Option ReaderMetadata) :
    (parse_document ts_parse kind msg meta).metadata =
      msg.filter (fun p =>
        !((parse_document ts_parse kind msg meta).mapped_fields.any
          (fun q => q.1 = p.1))) := by
  rfl

/-- C6: every parser of the chain yields messages whose `mapped_fields`
key set is disjoint from the `metadata` key set: the JSON field mapping
(also used by Logrus) filters `metadata` by the keys it mapped, and the
klog, regex and plain parsers all leave `mapped_fields` empty. -/
theorem c6_mapped_fields_disjoint_metadata :
    (∀ ts_parse kind msg meta,
      ((parse_document ts_parse kind msg meta).mapped_fields.map
        Prod.fst).Disjoint
        ((parse_document ts_parse kind msg meta).metadata.map Prod.fst)) ∧
    (∀ dt_parse line mapping meta,
      ((parse_mapping dt_parse line mapping meta).map
        (fun m => m.mapped_fields)).getD [] = []) ∧
    (∀ line meta,
      ((parse_klog line meta).map (fun m => m.mapped_fields)).getD [] = []) ∧
    (∀ fuzzy line meta, (parse_plain fuzzy line meta).mapped_fields = []) := by
  refine ⟨?_, ?_, ?_, fun fuzzy line meta => rfl⟩
  · intro ts_parse kind msg meta
    rw [parse_document_metadata_eq]
    exact mappedKeys_disjoint_filtered msg _
  · intro dt_parse line mapping meta
    unfold parse_mapping
    cases mapping.pattern.captures line <;> rfl
  · intro line meta
    unfold parse_klog
    rcases h : klogCaptures line with _ | ⟨c1, g2, g3, g4, g5⟩ <;> rfl

/-! ## C4: Chunk::measure versus the rendered width -/

/-- A `Date` chunk as the timestamp classifier emits for a missing
timestamp (value `"-"`), without padding flags. -/
def c4Date : Chunk :=
  .mk .Date .Left .Right false false false false false 0 (some "-") []

/-- C4 counterexample: `Chunk::measure` ignores the fixed-width rules the
renderer applies: the `Date` chunk with value `"-"` renders at the fixed
width 10, but `measure` returns the bare value length 1. -/
theorem c4_counterexample :
    (merge_chunks (plain_render_chunk c4Date) plainStyle).width = 10 ∧
    Chunk.measure c4Date = 1 :=
  ⟨rfl, rfl⟩

/-- The pad flags a rendered chunk contributes at most. -/
def padFlags (c : RenderedChunk) : Nat :=
  (if c.pad_left then 1 else 0) + (if c.pad_right then 1 else 0)

/-- Upper bound on merged width: every chunk's width plus one per set pad
flag. -/
def chunksBound (chunks : List RenderedChunk) : Nat :=
  (chunks.map (fun c => padFlags c + c.width)).sum

/-- Helper: `chunksBound` is additive. -/
theorem chunksBound_append (xs ys : List RenderedChunk) :
    chunksBound (xs ++ ys) = chunksBound xs + chunksBound ys := by
  simp [chunksBound]

/-- Helper: `chunksBound` on a cons. -/
theorem chunksBound_cons (c : RenderedChunk) (rest : List RenderedChunk) :
    chunksBound (c :: rest) = padFlags c + c.width + chunksBound rest := by
  simp [chunksBound]

/-- Helper: the merge loop's width is bounded by the accumulator width,
one possible space owed to the pending `pad_right`, and `chunksBound` of
the remainder. -/
theorem mergeLoop_width_le (chunks : List RenderedChunk) :
    ∀ (i : Nat) (acc : MergeAcc),
      (mergeLoop i acc chunks).width ≤
        acc.width + (if acc.last_child_pad_right then 1 else 0) +
          chunksBound chunks := by
  induction chunks with
  | nil =>
    intro i acc
    simp [mergeLoop, chunksBound]
  | cons c rest ih =>
    intro i acc
    by_cases hc : c.width = 0
    · simp only [mergeLoop, if_pos hc]
      have := ih (i + 1) acc
      rw [chunksBound_cons]
      omega
    · simp only [mergeLoop, if_neg hc]
      refine le_trans (ih (i + 1) _) ?_
      rw [chunksBound_cons]
      simp only [padFlags]
      have hpad :
          (if (decide (0 < i) && (acc.last_child_pad_right || c.pad_left))
            then 1 else 0) ≤
          (if acc.last_child_pad_right then 1 else 0) +
            (if c.pad_left then 1 else 0) := by
        by_cases hi : 0 < i <;>
          cases acc.last_child_pad_right <;> cases c.pad_left <;>
            simp [hi]
      omega

/-- Helper: `chunksBound` of the children's renderings is bounded by the
child loop of `measure`, given the bound for each child. -/
theorem renderChildren_bound_le (children : List Chunk)
    (hrec : ∀ ch ∈ children, noFixedKind ch = true →
      chunksBound (plain_render_chunk ch) ≤ Chunk.measure ch)
    (hnf : noFixedKindList children = true) :
    chunksBound (plainRenderChildren children) ≤ measureChildren children := by
  induction children with
  | nil => simp [plainRenderChildren, measureChildren, chunksBound]
  | cons ch rest ih =>
    simp only [noFixedKindList, Bool.and_eq_true] at hnf
    obtain ⟨h1, h2⟩ := hnf
    have hhead := hrec ch (List.mem_cons_self ch rest) h1
    have htail := ih (fun x hx => hrec x (List.mem_cons_of_mem ch hx)) h2
    simp only [plainRenderChildren, measureChildren]
    rw [chunksBound_append]
    unfold childPad
    omega

/-- Helper: strong induction on the size of the chunk tree for the
render-bound inequality. -/
theorem render_bound_aux :
    ∀ (n : Nat) (c : Chunk), sizeOf c ≤ n → noFixedKind c = true →
      chunksBound (plain_render_chunk c) ≤ Chunk.measure c := by
  intro n
  induction n with
  | zero =>
    intro c hc
    exfalso
    cases c with
    | mk kind slot align pl pr ba fba wr wt v children =>
      simp at hc
  | succ n ih =>
    intro c hsz hnf
    cases c with
    | mk kind slot align pl pr ba fba wr wt v children =>
      have hch : ∀ ch ∈ children, sizeOf ch ≤ n := by
        intro ch hm
        have h1 : sizeOf ch < sizeOf children := List.sizeOf_lt_of_mem hm
        have h2 : sizeOf children <
            sizeOf (Chunk.mk kind slot align pl pr ba fba wr wt v children) := by
          simp
        omega
      simp only [noFixedKind, Bool.and_eq_true, Option.isNone_iff_eq_none]
        at hnf
      obtain ⟨hfw, hnfl⟩ := hnf
      have hlist := renderChildren_bound_le children
        (fun ch hm h => ih ch (hch ch hm) h) hnfl
      simp only [plain_render_chunk, Chunk.measure, hfw]
      cases v with
      | none =>
        simp only [List.nil_append]
        omega
      | some s =>
        rw [List.singleton_append]
        rw [chunksBound_cons]
        simp only [padFlags]
        omega

/-- C4 amended: `Chunk::measure` over-approximates the on-screen width
instead of matching it: for every chunk tree containing no fixed-width
kind (`Date`, `Time`, `Level`), the width of the merged plain rendering is
at most `measure` (which counts padding flags twice for children and never
subtracts the single-space merge rule).  Exact equality fails, already for
any fixed-width chunk, as the counterexample shows. -/
theorem c4_amended (c : Chunk) (h : noFixedKind c = true) :
    (merge_chunks (plain_render_chunk c) plainStyle).width ≤
      Chunk.measure c := by
  have h1 : (merge_chunks (plain_render_chunk c) plainStyle).width ≤
      chunksBound (plain_render_chunk c) := by
    show (mergeLoop 0 ⟨0, false, "", false, false, false⟩ _).width ≤ _
    have := mergeLoop_width_le (plain_render_chunk c) 0
      ⟨0, false, "", false, false, false⟩
    simpa using this
  exact le_trans h1 (render_bound_aux (sizeOf c) c le_rfl h)

/-- A `Field` chunk like the metadata classifier's `foo=1`. -/
def c4Field : Chunk :=
  .mk .Field .Center .Left false false false false false 20 none
    [.mk .FieldKey .Left .Left true false false false false 0
      (some "foo=") [],
     .mk .FieldValue .Left .Left false true false false false 0
      (some "1") []]

/-- C4 witness: the amended bound applied to the concrete `Field` chunk
(rendered width 5, measure 9). -/
theorem c4_witness :
    noFixedKind c4Field = true ∧
    (merge_chunks (plain_render_chunk c4Field) plainStyle).width ≤
      Chunk.measure c4Field :=
  ⟨by decide, c4_amended c4Field (by decide)⟩

/-! ## C9: ordering of the reorder buffer -/

/-- A minimal message entry with the given timestamp. -/
def c9entry (ts : Option Int) (txt : String) : MessageEntry :=
  ⟨{ kind := .Plain, timestamp := ts, level := none, raw := none,
     text := some txt, metadata := [], reader_metadata := none,
     mapped_fields := [] }, []⟩

/-- Received at instant 0, key 100. -/
def c9m1 : TimestampedEntry := TimestampedEntry.new 0 0 (c9entry (some 100) "m1")

/-- Received at instant 2000, key 50. -/
def c9m2 : TimestampedEntry := TimestampedEntry.new 0 2000 (c9entry (some 50) "m2")

/-- C9 counterexample: two non-internal messages each held exactly
`buffer_ms = 1000` of monotonic time before emission are nevertheless
emitted in descending key order when their stays in the buffer do not
overlap: `c9m1` (key 100, received at 0) is evicted at instant 1000,
`c9m2` (key 50, received at 2000) at instant 3000. -/
theorem c9_counterexample :
    (orderedRun 1000 [] [([c9m1], 1000), ([c9m2], 3000)]).2 = [c9m1, c9m2] ∧
    c9m2.timestamp < c9m1.timestamp ∧
    c9m1.received + 1000 ≤ 1000 ∧ c9m2.received + 1000 ≤ 3000 :=
  ⟨rfl, by decide, by decide, by decide⟩

/-- Helper: the eviction loop splits the heap into the emitted prefix and
the remainder. -/
theorem drainHeap_append (buffer now : Nat) :
    ∀ heap, (drainHeap buffer now heap).1 ++ (drainHeap buffer now heap).2 =
      heap := by
  intro heap
  induction heap with
  | nil => rfl
  | cons e rest ih =>
    by_cases h : e.received + buffer ≤ now
    · simp only [drainHeap, if_pos h]
      simpa using ih
    · simp only [drainHeap, if_neg h]
      rfl

/-- Helper: membership after a heap push. -/
theorem mem_heapPush (e x : TimestampedEntry) :
    ∀ l, x ∈ heapPush e l ↔ x = e ∨ x ∈ l := by
  intro l
  induction l with
  | nil => simp [heapPush]
  | cons a rest ih =>
    by_cases h : a.timestamp ≤ e.timestamp
    · simp only [heapPush, if_pos h, List.mem_cons, ih]
      constructor
      · rintro (rfl | hx | hx) <;> tauto
      · rintro (rfl | hx | hx) <;> tauto
    · simp only [heapPush, if_neg h, List.mem_cons]

/-- Helper: a heap push preserves the ascending-key ordering. -/
theorem heapPush_pairwise (e : TimestampedEntry) :
    ∀ l, l.Pairwise tsLe → (heapPush e l).Pairwise tsLe := by
  intro l
  induction l with
  | nil =>
    intro _
    simp [heapPush, List.pairwise_singleton]
  | cons a rest ih =>
    intro hp
    rw [List.pairwise_cons] at hp
    obtain ⟨ha, hrest⟩ := hp
    by_cases h : a.timestamp ≤ e.timestamp
    · simp only [heapPush, if_pos h]
      rw [List.pairwise_cons]
      refine ⟨?_, ih hrest⟩
      intro x hx
      rcases (mem_heapPush e x rest).mp hx with rfl | hx
      · exact h
      · exact ha x hx
    · simp only [heapPush, if_neg h]
      have he : e.timestamp ≤ a.timestamp := le_of_not_le h
      rw [List.pairwise_cons]
      refine ⟨?_, List.pairwise_cons.mpr ⟨ha, hrest⟩⟩
      intro x hx
      rcases List.mem_cons.mp hx with rfl | hx
      · exact he
      · exact le_trans he (ha x hx)

/-- Helper: draining the arrival batch into the heap preserves the
ascending-key ordering. -/
theorem foldl_heapPush_pairwise (arrivals : List TimestampedEntry) :
    ∀ st, st.Pairwise tsLe →
      (arrivals.foldl (fun s e => heapPush e s) st).Pairwise tsLe := by
  induction arrivals with
  | nil => intro st h; exact h
  | cons a rest ih =>
    intro st h
    exact ih _ (heapPush_pairwise a st h)

/-- C9 amended: the buffer orders exactly the messages whose stays in the
heap overlap.  Precisely: (1) each eviction pass emits a prefix of the
heap and keeps the rest; (2) on an ascending-key heap the emitted
sequence is ascending and every emitted key is at most every remaining
key; (3) each loop iteration keeps the heap ascending; (4) hence if two
messages are simultaneously buffered when a pass runs and the
larger-keyed one is emitted, the smaller-keyed one is emitted in the same
pass (never later).  The claim's stronger guarantee — covering any two
messages each held at least `buffer_ms`, even with disjoint stays — fails
(see the counterexample). -/
theorem c9_amended :
    (∀ buffer now heap,
      (drainHeap buffer now heap).1 ++ (drainHeap buffer now heap).2 =
        heap) ∧
    (∀ buffer now heap, heap.Pairwise tsLe →
      (drainHeap buffer now heap).1.Pairwise tsLe ∧
      (∀ a ∈ (drainHeap buffer now heap).1,
        ∀ b ∈ (drainHeap buffer now heap).2, tsLe a b)) ∧
    (∀ buffer st arrivals now, st.Pairwise tsLe →
      (orderedTick buffer st arrivals now).1.Pairwise tsLe) ∧
    (∀ buffer now heap a b, heap.Pairwise tsLe → a ∈ heap →
      b ∈ (drainHeap buffer now heap).1 → a.timestamp < b.timestamp →
      a ∈ (drainHeap buffer now heap).1) := by
  have hpw : ∀ (buffer now : Nat) (heap : List TimestampedEntry),
      heap.Pairwise tsLe →
      (drainHeap buffer now heap).1.Pairwise tsLe ∧
      (∀ a ∈ (drainHeap buffer now heap).1,
        ∀ b ∈ (drainHeap buffer now heap).2, tsLe a b) := by
    intro buffer now heap hp
    rw [← drainHeap_append buffer now heap, List.pairwise_append] at hp
    exact ⟨hp.1, hp.2.2⟩
  refine ⟨drainHeap_append, hpw, ?_, ?_⟩
  · intro buffer st arrivals now hp
    have hst1 := foldl_heapPush_pairwise arrivals st hp
    show (drainHeap buffer now
      (arrivals.foldl (fun s e => heapPush e s) st)).2.Pairwise tsLe
    rw [← drainHeap_append buffer now
      (arrivals.foldl (fun s e => heapPush e s) st),
      List.pairwise_append] at hst1
    exact hst1.2.1
  · intro buffer now heap a b hp ha hb hab
    rw [← drainHeap_append buffer now heap, List.mem_append] at ha
    rcases ha with ha | ha
    · exact ha
    · exfalso
      have hba := (hpw buffer now heap hp).2 b hb a ha
      simp only [tsLe] at hba
      omega

/-- Received at instant 0, key 5. -/
def c9w1 : TimestampedEntry := ⟨0, 5, c9entry (some 5) "w1"⟩

/-- Received at instant 0, key 7. -/
def c9w2 : TimestampedEntry := ⟨0, 7, c9entry (some 7) "w2"⟩

/-- C9 witness: the amended guarantees applied to a concrete two-element
heap that is fully aged at instant 20 with buffer 10. -/
theorem c9_witness :
    ((drainHeap 10 20 [c9w1, c9w2]).1 ++ (drainHeap 10 20 [c9w1, c9w2]).2 =
      [c9w1, c9w2]) ∧
    (drainHeap 10 20 [c9w1, c9w2]).1.Pairwise tsLe ∧
    (orderedTick 10 [] [c9w1] 20).1.Pairwise tsLe ∧
    c9w1 ∈ (drainHeap 10 20 [c9w1, c9w2]).1 := by
  have hp : ([c9w1, c9w2] : List TimestampedEntry).Pairwise tsLe := by
    refine List.pairwise_cons.mpr ⟨?_, List.pairwise_cons.mpr ⟨?_, List.Pairwise.nil⟩⟩
    · intro x hx
      rw [List.mem_singleton] at hx
      subst hx
      decide
    · intro x hx
      exact absurd hx (List.not_mem_nil x)
  refine ⟨c9_amended.1 10 20 [c9w1, c9w2],
    (c9_amended.2.1 10 20 [c9w1, c9w2] hp).1,
    c9_amended.2.2.1 10 [] [c9w1] 20 List.Pairwise.nil,
    c9_amended.2.2.2 10 20 [c9w1, c9w2] c9w1 c9w2 hp
      (List.mem_cons_self c9w1 [c9w2]) ?_ (by decide)⟩
  show c9w2 ∈ [c9w1, c9w2]
  exact List.mem_cons_of_mem c9w1 (List.mem_singleton.mpr rfl)

end Woodchipper
